import Mathlib

/-!
Shallow embedding of the RayTracer rendering core (vector algebra, rays,
sphere intersection, material scattering, world traversal, the recursive
radiance estimator and the supersampling coordinate mapping), with theorems
checking the specification's claims against it.  Floating-point scalars are
modelled as real numbers; the hidden random number source is modelled as an
explicit argument (a single sampled vector for one scatter call, a stream of
sampled vectors for the recursive estimator).
-/

open Classical

set_option maxHeartbeats 1000000

/-- Three real components, mirroring `Vector3D { x, y, z }` in vector_3d.rs. -/
structure Vector3D where
  x : ℝ
  y : ℝ
  z : ℝ

/-- Componentwise addition (`impl Add for Vector3D`). -/
instance : Add Vector3D :=
  ⟨fun a b => ⟨a.x + b.x, a.y + b.y, a.z + b.z⟩⟩

/-- Componentwise subtraction (`impl Sub for Vector3D`). -/
instance : Sub Vector3D :=
  ⟨fun a b => ⟨a.x - b.x, a.y - b.y, a.z - b.z⟩⟩

/-- Componentwise negation (`impl Neg for Vector3D`). -/
instance : Neg Vector3D :=
  ⟨fun a => ⟨-a.x, -a.y, -a.z⟩⟩

/-- Componentwise multiplication (`impl Mul<Vector3D> for Vector3D`). -/
instance : Mul Vector3D :=
  ⟨fun a b => ⟨a.x * b.x, a.y * b.y, a.z * b.z⟩⟩

/-- Vector-by-scalar multiplication (`impl Mul<f64> for Vector3D`). -/
instance : HMul Vector3D ℝ Vector3D :=
  ⟨fun a s => ⟨a.x * s, a.y * s, a.z * s⟩⟩

/-- Vector-by-scalar division (`impl Div<f64> for Vector3D`). -/
noncomputable instance : HDiv Vector3D ℝ Vector3D :=
  ⟨fun a s => ⟨a.x / s, a.y / s, a.z / s⟩⟩

theorem Vector3D.ext_iff {a b : Vector3D} :
    a = b ↔ a.x = b.x ∧ a.y = b.y ∧ a.z = b.z := by
  constructor
  · intro h; subst h; exact ⟨rfl, rfl, rfl⟩
  · rintro ⟨hx, hy, hz⟩; cases a; cases b; simp_all

/-- Dot product, as in `Vector3D::dot`. -/
def Vector3D.dot (a b : Vector3D) : ℝ :=
  a.x * b.x + a.y * b.y + a.z * b.z

/-- Cross product, as in `Vector3D::cross`. -/
def Vector3D.cross (a b : Vector3D) : Vector3D :=
  ⟨a.y * b.z - a.z * b.y, a.z * b.x - a.x * b.z, a.x * b.y - a.y * b.x⟩

/-- Squared length, as in `Vector3D::length_squared`. -/
def Vector3D.length_squared (a : Vector3D) : ℝ :=
  a.x * a.x + a.y * a.y + a.z * a.z

/-- Euclidean distance, as in `Vector3D::distance`. -/
noncomputable def Vector3D.distance (a b : Vector3D) : ℝ :=
  Real.sqrt ((a.x - b.x) * (a.x - b.x) + (a.y - b.y) * (a.y - b.y) +
    (a.z - b.z) * (a.z - b.z))

/-- Length, defined through `distance` to the origin as in `Vector3D::length`. -/
noncomputable def Vector3D.length (a : Vector3D) : ℝ :=
  a.distance ⟨0, 0, 0⟩

/-- Normalisation, as in `Vector3D::unit_vector` (divide by own length). -/
noncomputable def Vector3D.unit_vector (a : Vector3D) : Vector3D :=
  a / a.length

/-- Machine epsilon of an IEEE-754 double, the `f64::EPSILON` threshold used
by `Vector3D::near_zero`. -/
noncomputable def f64Epsilon : ℝ := 2 ^ (-52 : ℤ)

/-- All three components below machine epsilon in absolute value, as in
`Vector3D::near_zero`. -/
def Vector3D.near_zero (a : Vector3D) : Prop :=
  |a.x| < f64Epsilon ∧ |a.y| < f64Epsilon ∧ |a.z| < f64Epsilon

/-- Origin plus direction, mirroring `Ray` in ray.rs. -/
structure Ray where
  origin : Vector3D
  direction : Vector3D

/-- Parametric point accessor `Ray::at`. -/
def Ray.at (r : Ray) (t : ℝ) : Vector3D :=
  r.origin + r.direction * t

/-- An sRGB triple, mirroring `palette::Srgb` as used by the core. -/
structure Color where
  red : ℝ
  green : ℝ
  blue : ℝ

/-- Diffuse material `Lambertian { albedo }` from material.rs. -/
structure Lambertian where
  albedo : Color

/-- Glossy material `Metal { albedo, roughness }` from material.rs. -/
structure Metal where
  albedo : Color
  roughness : ℝ

/-- The closed material sum `enum Material` from material.rs. -/
inductive Material where
  | lambertian : Lambertian → Material
  | metal : Metal → Material

/-- Intersection record from object.rs/sphere.rs: parameter, point, oriented
normal, front-face flag and the surface's material. -/
structure ObjectHitRecord where
  t : ℝ
  point : Vector3D
  normal : Vector3D
  front_face : Bool
  material : Material

/-- Mirror reflection `reflect(vec_1, vec_2) = vec_1 − vec_2·(2·vec_1⬝vec_2)`
from material.rs. -/
def reflect (vec_1 vec_2 : Vector3D) : Vector3D :=
  vec_1 - vec_2 * (2 * vec_1.dot vec_2)

/-- Lambertian scatter from material.rs, with the sampled
`random_in_unit_sphere()` vector passed in explicitly as `rnd`. -/
noncomputable def Lambertian.scatter (l : Lambertian) (_ray : Ray)
    (hit_record : ObjectHitRecord) (rnd : Vector3D) : Option (Ray × Color) :=
  let scatter_direction0 := hit_record.normal + rnd
  let scatter_direction :=
    if scatter_direction0.near_zero then hit_record.normal else scatter_direction0
  let target := hit_record.point + scatter_direction
  let scattered : Ray := ⟨hit_record.point, target - hit_record.point⟩
  let attenuation := l.albedo
  some (scattered, attenuation)

/-- Metal scatter from material.rs, with the sampled
`random_in_unit_sphere()` vector passed in explicitly as `rnd`. -/
noncomputable def Metal.scatter (m : Metal) (ray : Ray)
    (hit_record : ObjectHitRecord) (rnd : Vector3D) : Option (Ray × Color) :=
  let reflected := reflect ray.direction hit_record.normal
  let rough_direction := reflected + rnd * m.roughness
  let scattered : Ray := ⟨hit_record.point, rough_direction⟩
  let attenuation := m.albedo
  if scattered.direction.dot hit_record.normal > 0 then
    some (scattered, attenuation)
  else
    none

/-- Dispatch over the material sum, as in `impl Scatterable for Material`. -/
noncomputable def Material.scatter (m : Material) (ray : Ray)
    (hit_record : ObjectHitRecord) (rnd : Vector3D) : Option (Ray × Color) :=
  match m with
  | Material.lambertian l => l.scatter ray hit_record rnd
  | Material.metal mm => mm.scatter ray hit_record rnd

/-- Center, radius and material, mirroring `Sphere` in sphere.rs. -/
structure Sphere where
  center : Vector3D
  radius : ℝ
  material : Material

/-- Ray-sphere intersection `Sphere::hit` from sphere.rs, translated
branch for branch (half-b quadratic, strict `discriminant > 0` test, only the
near root `(−half_b − √disc)/a` examined, orientation policy on the normal). -/
noncomputable def Sphere.hit (s : Sphere) (ray : Ray) (t_min t_max : ℝ) :
    Option ObjectHitRecord :=
  let sphere_to_ray := ray.origin - s.center
  let a := ray.direction.length_squared
  let half_b := sphere_to_ray.dot ray.direction
  let c := sphere_to_ray.length_squared - s.radius * s.radius
  let discriminant := half_b * half_b - a * c
  if discriminant > 0 then
    let root := Real.sqrt discriminant
    let temp_soln := (-half_b - root) / a
    if temp_soln < t_max ∧ temp_soln > t_min then
      let intersect_point := ray.at temp_soln
      let normal := (intersect_point - s.center) / s.radius
      let front_face := decide (ray.direction.dot normal < 0)
      some { t := temp_soln
             point := intersect_point
             normal := if front_face then normal else -normal
             front_face := front_face
             material := s.material }
    else
      none
  else
    none

/-- World traversal loop from `World::hit` in world.rs: the mutable
`closest_so_far`/`hit_record` pair threaded through the `for` loop, one list
element per iteration.  The world holds its primitives in insertion order;
the one shipped primitive is `Sphere`. -/
noncomputable def World.hitLoop (objects : List Sphere) (ray : Ray)
    (t_min : ℝ) (closest_so_far : ℝ) (hit_record : Option ObjectHitRecord) :
    Option ObjectHitRecord :=
  match objects with
  | [] => hit_record
  | object :: rest =>
    match object.hit ray t_min closest_so_far with
    | some hit => World.hitLoop rest ray t_min hit.t (some hit)
    | none => World.hitLoop rest ray t_min closest_so_far hit_record

/-- `World::hit` from world.rs: start from `closest_so_far = t_max` and no
record, then run the loop over all primitives. -/
noncomputable def World.hit (objects : List Sphere) (ray : Ray)
    (t_min t_max : ℝ) : Option ObjectHitRecord :=
  World.hitLoop objects ray t_min t_max none

/-- Largest finite IEEE-754 double, the `std::f64::MAX` upper bound that
`Camera::ray_color` passes to `World::hit`. -/
noncomputable def f64MAX : ℝ := (2 - 2 ^ (-52 : ℤ)) * 2 ^ (1023 : ℕ)

/-- Recursive radiance estimator `Camera::ray_color` from camera.rs.  The
hidden thread-local RNG is modelled by the stream `rng` of sampled
`random_in_unit_sphere()` vectors together with the index `n` of the next
sample; each bounce consumes one sample. -/
noncomputable def rayColor (world : List Sphere) (rng : ℕ → Vector3D)
    (ray : Ray) (n : ℕ) (depth : ℤ) : Color :=
  if depth ≤ 0 then
    ⟨0, 0, 0⟩
  else
    match World.hit world ray 0.001 f64MAX with
    | some hit_record =>
      match hit_record.material.scatter ray hit_record (rng n) with
      | some (scattered_ray, albedo) =>
        let target_color := rayColor world rng scattered_ray (n + 1) (depth - 1)
        ⟨albedo.red * target_color.red,
         albedo.green * target_color.green,
         albedo.blue * target_color.blue⟩
      | none => ⟨0, 0, 0⟩
    | none =>
      let t := 0.5 * (ray.direction.unit_vector.y + 1)
      ⟨(1 - t) * 1 + t * 0.5, (1 - t) * 1 + t * 0.7, (1 - t) * 1 + t * 1⟩
termination_by depth.toNat
decreasing_by omega

/-- Number of recursive calls made by `rayColor` on the same inputs: zero on
the depth cutoff, on a miss and on absorption, one plus the count of the
bounce otherwise. -/
noncomputable def rayColorCalls (world : List Sphere) (rng : ℕ → Vector3D)
    (ray : Ray) (n : ℕ) (depth : ℤ) : ℕ :=
  if depth ≤ 0 then
    0
  else
    match World.hit world ray 0.001 f64MAX with
    | some hit_record =>
      match hit_record.material.scatter ray hit_record (rng n) with
      | some (scattered_ray, _albedo) =>
        1 + rayColorCalls world rng scattered_ray (n + 1) (depth - 1)
      | none => 0
    | none => 0
termination_by depth.toNat
decreasing_by omega

/-- Horizontal sample coordinate passed to `Camera::get_ray` by the
supersampling branch of `AntiAliasing::anti_alias`:
`u = (x + ξ) / (image_width − 1)` with jitter `ξ` drawn from `[0, 1)`. -/
noncomputable def superSampleU (x imageWidth : ℕ) (ξ : ℝ) : ℝ :=
  ((x : ℝ) + ξ) / ((imageWidth : ℝ) - 1)

/-- Vertical sample coordinate passed to `Camera::get_ray` by the
supersampling branch of `AntiAliasing::anti_alias`:
`v = (image_height − (y + ξ)) / (image_height − 1)` with jitter `ξ` drawn
from `[0, 1)`. -/
noncomputable def superSampleV (y imageHeight : ℕ) (ξ : ℝ) : ℝ :=
  ((imageHeight : ℝ) - ((y : ℝ) + ξ)) / ((imageHeight : ℝ) - 1)

/-- Half-b discriminant `half_b² − a·c` of the ray-sphere quadratic, exactly
as computed inside `Sphere::hit`. -/
noncomputable def Sphere.discr (s : Sphere) (ray : Ray) : ℝ :=
  let sphere_to_ray := ray.origin - s.center
  let a := ray.direction.length_squared
  let half_b := sphere_to_ray.dot ray.direction
  let c := sphere_to_ray.length_squared - s.radius * s.radius
  half_b * half_b - a * c

/-- The one root `(−half_b − √discriminant)/a` that `Sphere::hit` examines. -/
noncomputable def Sphere.nearRoot (s : Sphere) (ray : Ray) : ℝ :=
  let sphere_to_ray := ray.origin - s.center
  let a := ray.direction.length_squared
  let half_b := sphere_to_ray.dot ray.direction
  (-half_b - Real.sqrt (s.discr ray)) / a

/-- The exact condition under which `Sphere::hit` reports an intersection:
positive discriminant and the near root strictly inside the window. -/
noncomputable def Sphere.hitsIn (s : Sphere) (ray : Ray) (t_min t_max : ℝ) : Prop :=
  s.discr ray > 0 ∧ s.nearRoot ray < t_max ∧ s.nearRoot ray > t_min

/-- The record `Sphere::hit` builds when it reports an intersection. -/
noncomputable def Sphere.hitRecordAt (s : Sphere) (ray : Ray) : ObjectHitRecord :=
  let temp_soln := s.nearRoot ray
  let intersect_point := ray.at temp_soln
  let normal := (intersect_point - s.center) / s.radius
  let front_face := decide (ray.direction.dot normal < 0)
  { t := temp_soln
    point := intersect_point
    normal := if front_face then normal else -normal
    front_face := front_face
    material := s.material }

theorem Sphere.hitRecordAt_t (s : Sphere) (ray : Ray) :
    (s.hitRecordAt ray).t = s.nearRoot ray := rfl

theorem Sphere.hitRecordAt_material (s : Sphere) (ray : Ray) :
    (s.hitRecordAt ray).material = s.material := rfl

theorem Sphere.hit_eq (s : Sphere) (ray : Ray) (t_min t_max : ℝ) :
    s.hit ray t_min t_max =
      if s.hitsIn ray t_min t_max then some (s.hitRecordAt ray) else none := by
  simp only [Sphere.hit, Sphere.hitsIn, Sphere.discr, Sphere.nearRoot,
    Sphere.hitRecordAt]
  split_ifs with h1 h2 h3 h3 <;> first
    | rfl
    | (exfalso; tauto)

theorem Sphere.hit_eq_some_iff (s : Sphere) (ray : Ray) (t_min t_max : ℝ)
    (r : ObjectHitRecord) :
    s.hit ray t_min t_max = some r ↔
      s.hitsIn ray t_min t_max ∧ r = s.hitRecordAt ray := by
  rw [Sphere.hit_eq]
  split_ifs with h <;> simp [h, eq_comm]

theorem Sphere.hit_eq_none_iff (s : Sphere) (ray : Ray) (t_min t_max : ℝ) :
    s.hit ray t_min t_max = none ↔ ¬ s.hitsIn ray t_min t_max := by
  rw [Sphere.hit_eq]
  split_ifs with h <;> simp [h]

theorem World.hitLoop_acc (objects : List Sphere) (ray : Ray) (t_min : ℝ) :
    ∀ (closest : ℝ) (rec : Option ObjectHitRecord),
      World.hitLoop objects ray t_min closest rec =
        match World.hitLoop objects ray t_min closest none with
        | some r => some r
        | none => rec := by
  induction objects with
  | nil => intro closest rec; rfl
  | cons o rest ih =>
    intro closest rec
    rw [World.hitLoop, World.hitLoop]
    cases h : o.hit ray t_min closest with
    | some hit =>
      dsimp only
      rw [ih hit.t (some hit)]
      cases h2 : World.hitLoop rest ray t_min hit.t none <;> simp
    | none =>
      exact ih closest rec

theorem World.hitLoop_none_iff (objects : List Sphere) (ray : Ray) (t_min : ℝ) :
    ∀ closest : ℝ,
      (World.hitLoop objects ray t_min closest none = none ↔
        ∀ s ∈ objects, ¬ s.hitsIn ray t_min closest) := by
  induction objects with
  | nil => intro closest; simp [World.hitLoop]
  | cons o rest ih =>
    intro closest
    rw [World.hitLoop]
    cases h : o.hit ray t_min closest with
    | some hit =>
      dsimp only
      rw [World.hitLoop_acc rest ray t_min hit.t (some hit)]
      have ho : o.hitsIn ray t_min closest :=
        ((Sphere.hit_eq_some_iff o ray t_min closest hit).mp h).1
      constructor
      · intro hcontra
        cases h2 : World.hitLoop rest ray t_min hit.t none <;>
          simp [h2] at hcontra
      · intro hall
        exact absurd ho (hall o (List.mem_cons_self o rest))
    | none =>
      dsimp only
      have ho : ¬ o.hitsIn ray t_min closest :=
        (Sphere.hit_eq_none_iff o ray t_min closest).mp h
      rw [ih closest]
      simp [ho]

theorem World.hitLoop_some_spec (objects : List Sphere) (ray : Ray) (t_min : ℝ) :
    ∀ (closest : ℝ) (r : ObjectHitRecord),
      World.hitLoop objects ray t_min closest none = some r →
      ∃ i, ∃ hi : i < objects.length,
        r = (objects.get ⟨i, hi⟩).hitRecordAt ray ∧
        (objects.get ⟨i, hi⟩).hitsIn ray t_min closest ∧
        (∀ j (hj : j < objects.length),
          (objects.get ⟨j, hj⟩).hitsIn ray t_min closest →
          r.t ≤ (objects.get ⟨j, hj⟩).nearRoot ray) ∧
        (∀ j (hj : j < objects.length), j < i →
          (objects.get ⟨j, hj⟩).hitsIn ray t_min closest →
          r.t < (objects.get ⟨j, hj⟩).nearRoot ray) := by
  induction objects with
  | nil =>
    intro closest r h
    simp [World.hitLoop] at h
  | cons o rest ih =>
    intro closest r hres
    rw [World.hitLoop] at hres
    cases h : o.hit ray t_min closest with
    | none =>
      rw [h] at hres
      dsimp only at hres
      obtain ⟨i, hi, hrec, hhits, hmin, hstrict⟩ := ih closest r hres
      have hno : ¬ o.hitsIn ray t_min closest :=
        (Sphere.hit_eq_none_iff o ray t_min closest).mp h
      refine ⟨i + 1, Nat.succ_lt_succ hi, hrec, hhits, ?_, ?_⟩
      · intro j hj hhit
        cases j with
        | zero => exact absurd hhit hno
        | succ j => exact hmin j (Nat.lt_of_succ_lt_succ hj) hhit
      · intro j hj hj0 hhit
        cases j with
        | zero => exact absurd hhit hno
        | succ j =>
          exact hstrict j (Nat.lt_of_succ_lt_succ hj) (Nat.lt_of_succ_lt_succ hj0) hhit
    | some hit =>
      rw [h] at hres
      dsimp only at hres
      rw [World.hitLoop_acc rest ray t_min hit.t (some hit)] at hres
      obtain ⟨ho_hits, ho_rec⟩ := (Sphere.hit_eq_some_iff o ray t_min closest hit).mp h
      have hit_t : hit.t = o.nearRoot ray := by rw [ho_rec]; rfl
      cases h2 : World.hitLoop rest ray t_min hit.t none with
      | none =>
        rw [h2] at hres
        dsimp only at hres
        have hr : r = hit := by
          cases hres
          rfl
        have hnone : ∀ s ∈ rest, ¬ s.hitsIn ray t_min hit.t :=
          (World.hitLoop_none_iff rest ray t_min hit.t).mp h2
        have hrt : r.t = o.nearRoot ray := by rw [hr, hit_t]
        refine ⟨0, Nat.succ_pos _, by rw [hr, ho_rec]; rfl, ho_hits, ?_, ?_⟩
        · intro j hj hhit
          cases j with
          | zero =>
            exact le_of_eq hrt
          | succ j =>
            have hsmem := List.get_mem rest j (Nat.lt_of_succ_lt_succ hj)
            have hns := hnone _ hsmem
            obtain ⟨hd, hlt, hgt⟩ := hhit
            by_contra hc
            push_neg at hc
            rw [hrt, ← hit_t] at hc
            exact hns ⟨hd, hc, hgt⟩
        · intro j hj hj0 hhit
          exact absurd hj0 (Nat.not_lt_zero j)
      | some r2 =>
        rw [h2] at hres
        dsimp only at hres
        have hr : r = r2 := by
          cases hres
          rfl
        subst hr
        obtain ⟨i, hi, hrec, hhits, hmin, hstrict⟩ := ih hit.t r h2
        have hrt : r.t = (rest.get ⟨i, hi⟩).nearRoot ray := by
          rw [hrec]; rfl
        have hlt_hit : r.t < hit.t := by
          rw [hrt]; exact hhits.2.1
        have ho_lt : o.nearRoot ray < closest := ho_hits.2.1
        refine ⟨i + 1, Nat.succ_lt_succ hi, hrec, ?_, ?_, ?_⟩
        · have hin : (rest.get ⟨i, hi⟩).hitsIn ray t_min closest :=
            ⟨hhits.1, by rw [← hrt]; exact lt_trans hlt_hit (hit_t ▸ ho_lt), hhits.2.2⟩
          exact hin
        · intro j hj hhit
          cases j with
          | zero =>
            exact le_of_lt (hit_t ▸ hlt_hit)
          | succ j =>
            by_cases hcase : (rest.get ⟨j, Nat.lt_of_succ_lt_succ hj⟩).nearRoot ray < hit.t
            · exact hmin j (Nat.lt_of_succ_lt_succ hj) ⟨hhit.1, hcase, hhit.2.2⟩
            · push_neg at hcase
              exact le_trans (le_of_lt hlt_hit) hcase
        · intro j hj hj0 hhit
          cases j with
          | zero =>
            exact hit_t ▸ hlt_hit
          | succ j =>
            by_cases hcase : (rest.get ⟨j, Nat.lt_of_succ_lt_succ hj⟩).nearRoot ray < hit.t
            · exact hstrict j (Nat.lt_of_succ_lt_succ hj) (Nat.lt_of_succ_lt_succ hj0)
                ⟨hhit.1, hcase, hhit.2.2⟩
            · push_neg at hcase
              exact lt_of_lt_of_le hlt_hit hcase

@[simp] theorem Vector3D.add_def (a b : Vector3D) :
    a + b = ⟨a.x + b.x, a.y + b.y, a.z + b.z⟩ := rfl

@[simp] theorem Vector3D.sub_def (a b : Vector3D) :
    a - b = ⟨a.x - b.x, a.y - b.y, a.z - b.z⟩ := rfl

@[simp] theorem Vector3D.neg_def (a : Vector3D) :
    -a = ⟨-a.x, -a.y, -a.z⟩ := rfl

@[simp] theorem Vector3D.mul_def (a b : Vector3D) :
    a * b = ⟨a.x * b.x, a.y * b.y, a.z * b.z⟩ := rfl

@[simp] theorem Vector3D.smul_def (a : Vector3D) (s : ℝ) :
    a * s = ⟨a.x * s, a.y * s, a.z * s⟩ := rfl

@[simp] theorem Vector3D.sdiv_def (a : Vector3D) (s : ℝ) :
    a / s = ⟨a.x / s, a.y / s, a.z / s⟩ := rfl

@[simp] theorem Vector3D.dot_def (a b : Vector3D) :
    a.dot b = a.x * b.x + a.y * b.y + a.z * b.z := rfl

@[simp] theorem Vector3D.length_squared_def (a : Vector3D) :
    a.length_squared = a.x * a.x + a.y * a.y + a.z * a.z := rfl

@[simp] theorem Ray.at_def (r : Ray) (t : ℝ) :
    r.at t = ⟨r.origin.x + r.direction.x * t, r.origin.y + r.direction.y * t,
      r.origin.z + r.direction.z * t⟩ := rfl

theorem f64Epsilon_pos : 0 < f64Epsilon := by
  unfold f64Epsilon
  positivity

theorem f64Epsilon_lt_one : f64Epsilon < 1 := by
  unfold f64Epsilon
  rw [zpow_neg]
  rw [inv_lt_one_iff₀]
  right
  have h1 : (1 : ℝ) < 2 := by norm_num
  calc (1 : ℝ) = 2 ^ (0 : ℤ) := by norm_num
  _ < 2 ^ (52 : ℤ) := by
      apply zpow_lt_zpow_right₀ h1
      norm_num

/-- A grey Lambertian material used as a concrete instantiation input. -/
noncomputable def sampleMaterial : Material :=
  Material.lambertian ⟨⟨0.5, 0.5, 0.5⟩⟩

/-- Unit sphere two units in front of the origin, used as a concrete input. -/
noncomputable def sampleSphere : Sphere := ⟨⟨0, 0, -2⟩, 1, sampleMaterial⟩

/-- Ray from the origin straight at `sampleSphere` (first hit at t = 1). -/
noncomputable def sampleRayHit : Ray := ⟨⟨0, 0, 0⟩, ⟨0, 0, -1⟩⟩

/-- Ray from the origin that misses `sampleSphere` entirely. -/
noncomputable def sampleRayMiss : Ray := ⟨⟨0, 0, 0⟩, ⟨1, 0, 0⟩⟩

/-- Unit sphere centered at the origin with a ray starting at its center:
the near quadratic root is negative and only the far root lies inside the
search window. -/
noncomputable def insideSphere : Sphere := ⟨⟨0, 0, 0⟩, 1, sampleMaterial⟩

/-- Ray whose origin is the center of `insideSphere`. -/
noncomputable def insideRay : Ray := ⟨⟨0, 0, 0⟩, ⟨1, 0, 0⟩⟩

/-- Unit sphere touched tangentially by `tangentRay` (discriminant 0). -/
noncomputable def tangentSphere : Sphere := ⟨⟨0, 1, 0⟩, 1, sampleMaterial⟩

/-- Ray grazing `tangentSphere` at parameter t = 2. -/
noncomputable def tangentRay : Ray := ⟨⟨-2, 0, 0⟩, ⟨1, 0, 0⟩⟩

theorem Vector3D.length_squared_nonneg (a : Vector3D) : 0 ≤ a.length_squared := by
  simp only [Vector3D.length_squared_def]
  nlinarith [mul_self_nonneg a.x, mul_self_nonneg a.y, mul_self_nonneg a.z]

theorem Sphere.dir_ls_pos_of_discr_pos (s : Sphere) (ray : Ray)
    (h : 0 < s.discr ray) : 0 < ray.direction.length_squared := by
  rcases lt_or_eq_of_le (ray.direction.length_squared_nonneg) with hlt | heq
  · exact hlt
  · exfalso
    have hx : ray.direction.x = 0 := by
      simp only [Vector3D.length_squared_def] at heq
      nlinarith [mul_self_nonneg ray.direction.x, mul_self_nonneg ray.direction.y,
        mul_self_nonneg ray.direction.z]
    have hy : ray.direction.y = 0 := by
      simp only [Vector3D.length_squared_def] at heq
      nlinarith [mul_self_nonneg ray.direction.x, mul_self_nonneg ray.direction.y,
        mul_self_nonneg ray.direction.z]
    have hz : ray.direction.z = 0 := by
      simp only [Vector3D.length_squared_def] at heq
      nlinarith [mul_self_nonneg ray.direction.x, mul_self_nonneg ray.direction.y,
        mul_self_nonneg ray.direction.z]
    simp only [Sphere.discr, Vector3D.dot_def, Vector3D.length_squared_def,
      Vector3D.sub_def, hx, hy, hz] at h
    nlinarith [h]

theorem Sphere.nearRoot_on_sphere (s : Sphere) (ray : Ray)
    (h : 0 < s.discr ray) :
    (ray.at (s.nearRoot ray) - s.center).length_squared =
      s.radius * s.radius := by
  have ha := s.dir_ls_pos_of_discr_pos ray h
  have hnr : s.nearRoot ray =
      (-((ray.origin - s.center).dot ray.direction) - Real.sqrt (s.discr ray)) /
        ray.direction.length_squared := rfl
  have hdisc : s.discr ray =
      ((ray.origin - s.center).dot ray.direction) *
        ((ray.origin - s.center).dot ray.direction) -
      ray.direction.length_squared *
        ((ray.origin - s.center).length_squared - s.radius * s.radius) := rfl
  have hrt : Real.sqrt (s.discr ray) * Real.sqrt (s.discr ray) = s.discr ray :=
    Real.mul_self_sqrt (le_of_lt h)
  have hexpand : ∀ t : ℝ, (ray.at t - s.center).length_squared =
      (ray.origin - s.center).length_squared +
        2 * t * ((ray.origin - s.center).dot ray.direction) +
        t * t * ray.direction.length_squared := by
    intro t
    simp only [Ray.at_def, Vector3D.sub_def, Vector3D.length_squared_def,
      Vector3D.dot_def]
    ring
  rw [hexpand, hnr]
  set A := ray.direction.length_squared with hA
  set B := (ray.origin - s.center).dot ray.direction with hB
  set C := (ray.origin - s.center).length_squared with hC
  set R := Real.sqrt (s.discr ray) with hR
  rw [hdisc] at hrt
  have hA0 : A ≠ 0 := ne_of_gt ha
  field_simp
  linear_combination A ^ 2 * hrt

theorem insideSphere_discr : insideSphere.discr insideRay = 1 := by
  simp only [Sphere.discr, insideSphere, insideRay, sampleMaterial,
    Vector3D.sub_def, Vector3D.dot_def, Vector3D.length_squared_def]
  norm_num

theorem insideSphere_nearRoot : insideSphere.nearRoot insideRay = -1 := by
  simp only [Sphere.nearRoot, insideSphere_discr, Real.sqrt_one]
  simp only [insideSphere, insideRay, sampleMaterial, Vector3D.sub_def,
    Vector3D.dot_def, Vector3D.length_squared_def]
  norm_num

/-- C1 counterexample: a ray whose origin is the center of a unit sphere.
The genuine intersection at parameter t = 1 lies strictly inside
(0.001, 100), yet `Sphere::hit` returns None, because the near root −1 is
rejected and the far root is never tried. -/
theorem sphere_hit_inside_origin_cex :
    Sphere.hit insideSphere insideRay 0.001 100 = none ∧
    (0.001 : ℝ) < 1 ∧ (1 : ℝ) < 100 ∧
    (insideRay.at 1 - insideSphere.center).length_squared =
      insideSphere.radius * insideSphere.radius := by
  refine ⟨?_, by norm_num, by norm_num, ?_⟩
  · rw [Sphere.hit_eq, if_neg]
    intro hin
    have h3 := hin.2.2
    rw [insideSphere_nearRoot] at h3
    norm_num at h3
  · simp only [insideRay, insideSphere, sampleMaterial, Ray.at_def,
      Vector3D.sub_def, Vector3D.length_squared_def]
    norm_num

/-- C1 (amended): `Sphere::hit` returns Some iff the discriminant is
strictly positive and the nearer root (−half_b − √disc)/a lies strictly
inside (t_min, t_max); when it does, the record's parameter is exactly that
near root and the hit point lies on the sphere.  The farther root is never
tried, so a ray whose origin is inside the sphere (whose only in-window
intersection is the far root) reports a miss. -/
theorem sphere_hit_near_root_characterization (s : Sphere) (ray : Ray)
    (t_min t_max : ℝ) :
    ((∃ r, s.hit ray t_min t_max = some r) ↔
      (0 < s.discr ray ∧ t_min < s.nearRoot ray ∧ s.nearRoot ray < t_max)) ∧
    ∀ r, s.hit ray t_min t_max = some r →
      r.t = s.nearRoot ray ∧
      (ray.at r.t - s.center).length_squared = s.radius * s.radius := by
  constructor
  · rw [Sphere.hit_eq]
    split_ifs with hh
    · exact ⟨fun _ => ⟨hh.1, hh.2.2, hh.2.1⟩, fun _ => ⟨_, rfl⟩⟩
    · constructor
      · rintro ⟨r, hr⟩
        exact absurd hr (by simp)
      · intro hc
        exact absurd ⟨hc.1, hc.2.2, hc.2.1⟩ hh
  · intro r hr
    obtain ⟨hin, hrec⟩ := (Sphere.hit_eq_some_iff s ray t_min t_max r).mp hr
    have hrt : r.t = s.nearRoot ray := by rw [hrec]; rfl
    exact ⟨hrt, by rw [hrt]; exact s.nearRoot_on_sphere ray hin.1⟩

theorem sampleSphere_discr : sampleSphere.discr sampleRayHit = 1 := by
  simp only [Sphere.discr, sampleSphere, sampleRayHit, sampleMaterial,
    Vector3D.sub_def, Vector3D.dot_def, Vector3D.length_squared_def]
  norm_num

theorem sampleSphere_nearRoot : sampleSphere.nearRoot sampleRayHit = 1 := by
  simp only [Sphere.nearRoot, sampleSphere_discr, Real.sqrt_one]
  simp only [sampleSphere, sampleRayHit, sampleMaterial, Vector3D.sub_def,
    Vector3D.dot_def, Vector3D.length_squared_def]
  norm_num

theorem sphere_hit_near_root_characterization_witness :
    ∃ r, Sphere.hit sampleSphere sampleRayHit 0.001 100 = some r :=
  (sphere_hit_near_root_characterization sampleSphere sampleRayHit
    0.001 100).1.mpr
    (by rw [sampleSphere_discr, sampleSphere_nearRoot]; norm_num)

theorem tangentSphere_discr : tangentSphere.discr tangentRay = 0 := by
  simp only [Sphere.discr, tangentSphere, tangentRay, sampleMaterial,
    Vector3D.sub_def, Vector3D.dot_def, Vector3D.length_squared_def]
  norm_num

/-- C9 counterexample: `tangentRay` touches `tangentSphere` tangentially
(discriminant exactly 0) at parameter t = 2 strictly inside (0.001, 100),
yet `Sphere::hit` returns None because it demands `discriminant > 0`. -/
theorem sphere_hit_tangent_cex :
    tangentSphere.discr tangentRay = 0 ∧
    Sphere.hit tangentSphere tangentRay 0.001 100 = none ∧
    (0.001 : ℝ) < 2 ∧ (2 : ℝ) < 100 ∧
    (tangentRay.at 2 - tangentSphere.center).length_squared =
      tangentSphere.radius * tangentSphere.radius := by
  refine ⟨tangentSphere_discr, ?_, by norm_num, by norm_num, ?_⟩
  · rw [Sphere.hit_eq, if_neg]
    intro hin
    have h1 := hin.1
    rw [tangentSphere_discr] at h1
    exact lt_irrefl 0 h1
  · simp only [tangentRay, tangentSphere, sampleMaterial, Ray.at_def,
      Vector3D.sub_def, Vector3D.length_squared_def]
    norm_num

/-- C9 (amended): a tangent ray — discriminant exactly 0 — always yields a
miss, whatever the window, because `Sphere::hit` requires the discriminant
to be strictly positive. -/
theorem sphere_hit_tangent_miss (s : Sphere) (ray : Ray) (t_min t_max : ℝ)
    (h : s.discr ray = 0) : s.hit ray t_min t_max = none := by
  rw [Sphere.hit_eq, if_neg]
  intro hin
  exact lt_irrefl 0 (h ▸ hin.1)

theorem sphere_hit_tangent_miss_witness :
    Sphere.hit tangentSphere tangentRay 0.001 100 = none :=
  sphere_hit_tangent_miss tangentSphere tangentRay 0.001 100 tangentSphere_discr

/-- C2: `World::hit` returns None iff no primitive hits in the window;
when it returns a record, that record is produced by some primitive, its
parameter is minimal among every primitive's hit in the original window,
and every earlier-inserted primitive's hit is strictly farther — so on a
tie the earliest-inserted primitive wins, later equal hits never replacing
the current record. -/
theorem world_hit_returns_nearest (w : List Sphere) (ray : Ray)
    (t_min t_max : ℝ) :
    (World.hit w ray t_min t_max = none ↔
      ∀ s ∈ w, s.hit ray t_min t_max = none) ∧
    ∀ r, World.hit w ray t_min t_max = some r →
      ∃ i, ∃ hi : i < w.length,
        (w.get ⟨i, hi⟩).hit ray t_min t_max = some r ∧
        (∀ j (hj : j < w.length) (rj : ObjectHitRecord),
          (w.get ⟨j, hj⟩).hit ray t_min t_max = some rj → r.t ≤ rj.t) ∧
        (∀ j (hj : j < w.length), j < i → ∀ rj : ObjectHitRecord,
          (w.get ⟨j, hj⟩).hit ray t_min t_max = some rj → r.t < rj.t) := by
  constructor
  · rw [World.hit, World.hitLoop_none_iff]
    constructor
    · intro hall s hs
      exact (Sphere.hit_eq_none_iff s ray t_min t_max).mpr (hall s hs)
    · intro hall s hs
      exact (Sphere.hit_eq_none_iff s ray t_min t_max).mp (hall s hs)
  · intro r hres
    rw [World.hit] at hres
    obtain ⟨i, hi, hrec, hhits, hmin, hstrict⟩ :=
      World.hitLoop_some_spec w ray t_min t_max r hres
    refine ⟨i, hi, ?_, ?_, ?_⟩
    · exact (Sphere.hit_eq_some_iff _ ray t_min t_max r).mpr ⟨hhits, hrec⟩
    · intro j hj rj hrj
      obtain ⟨hjh, hjrec⟩ := (Sphere.hit_eq_some_iff _ ray t_min t_max rj).mp hrj
      have : rj.t = (w.get ⟨j, hj⟩).nearRoot ray := by rw [hjrec]; rfl
      rw [this]
      exact hmin j hj hjh
    · intro j hj hji rj hrj
      obtain ⟨hjh, hjrec⟩ := (Sphere.hit_eq_some_iff _ ray t_min t_max rj).mp hrj
      have : rj.t = (w.get ⟨j, hj⟩).nearRoot ray := by rw [hjrec]; rfl
      rw [this]
      exact hstrict j hj hji hjh

theorem world_hit_returns_nearest_witness :
    World.hit [sampleSphere] sampleRayMiss 0.001 100 = none :=
  (world_hit_returns_nearest [sampleSphere] sampleRayMiss 0.001 100).1.mpr
    (by
      intro s hs
      rw [List.mem_singleton] at hs
      subst hs
      rw [Sphere.hit_eq, if_neg]
      intro hin
      have h1 := hin.1
      simp only [Sphere.discr, sampleSphere, sampleRayMiss, sampleMaterial,
        Vector3D.sub_def, Vector3D.dot_def, Vector3D.length_squared_def] at h1
      norm_num at h1)

theorem World.hit_material_mem (w : List Sphere) (ray : Ray)
    (t_min t_max : ℝ) (r : ObjectHitRecord)
    (h : World.hit w ray t_min t_max = some r) :
    ∃ s ∈ w, r.material = s.material := by
  rw [World.hit] at h
  obtain ⟨i, hi, hrec, -, -, -⟩ :=
    World.hitLoop_some_spec w ray t_min t_max r h
  refine ⟨w.get ⟨i, hi⟩, List.get_mem w i hi, ?_⟩
  rw [hrec]
  rfl

theorem Vector3D.dot_neg (a b : Vector3D) : a.dot (-b) = -(a.dot b) := by
  simp only [Vector3D.neg_def, Vector3D.dot_def]
  ring

/-- C3: whenever `Sphere::hit` returns a record, the stored normal opposes
the incident ray (nonpositive dot product with the ray direction);
`front_face` is true exactly when the ray direction makes a negative dot
product with the outward geometric normal (ray struck the exterior); and
when `front_face` is false the stored normal is the negated outward
normal. -/
theorem sphere_hit_normal_opposes_ray (s : Sphere) (ray : Ray)
    (t_min t_max : ℝ) (r : ObjectHitRecord)
    (h : s.hit ray t_min t_max = some r) :
    ray.direction.dot r.normal ≤ 0 ∧
    (r.front_face = true ↔
      ray.direction.dot ((ray.at r.t - s.center) / s.radius) < 0) ∧
    (r.front_face = false →
      r.normal = -((ray.at r.t - s.center) / s.radius)) := by
  obtain ⟨hin, hrec⟩ := (Sphere.hit_eq_some_iff s ray t_min t_max r).mp h
  subst hrec
  simp only [Sphere.hitRecordAt]
  by_cases hd :
      ray.direction.dot ((ray.at (s.nearRoot ray) - s.center) / s.radius) < 0
  · simp only [hd, decide_true_eq_true, decide_eq_true_eq, if_true]
    refine ⟨le_of_lt hd, by simp [hd], by simp⟩
  · simp only [hd, decide_eq_true_eq, if_false]
    have hge : 0 ≤ ray.direction.dot ((ray.at (s.nearRoot ray) - s.center) / s.radius) :=
      le_of_not_lt hd
    refine ⟨?_, by simp [hd], by simp⟩
    rw [Vector3D.dot_neg]
    linarith

theorem sphere_hit_normal_opposes_ray_witness :
    sampleRayHit.direction.dot (sampleSphere.hitRecordAt sampleRayHit).normal ≤ 0 :=
  (sphere_hit_normal_opposes_ray sampleSphere sampleRayHit 0.001 100
    (sampleSphere.hitRecordAt sampleRayHit)
    (by
      rw [Sphere.hit_eq, if_pos]
      exact ⟨by rw [sampleSphere_discr]; norm_num,
        by rw [sampleSphere_nearRoot]; norm_num,
        by rw [sampleSphere_nearRoot]; norm_num⟩)).1

theorem Vector3D.add_sub_cancel_left_vec (p d : Vector3D) : (p + d) - p = d := by
  rw [Vector3D.ext_iff]
  simp only [Vector3D.add_def, Vector3D.sub_def]
  refine ⟨by ring, by ring, by ring⟩

/-- C7: Lambertian scatter always returns Some: the attenuation is the
albedo and the scattered ray starts at the hit point with direction
`hit.normal + rnd`, replaced by `hit.normal` when that sum is near zero;
the `(point + scatter_direction) − point` detour forms exactly
`scatter_direction`. -/
theorem lambertian_scatter_always_some (l : Lambertian) (ray : Ray)
    (hr : ObjectHitRecord) (rnd : Vector3D) :
    l.scatter ray hr rnd =
      some (⟨hr.point,
        if (hr.normal + rnd).near_zero then hr.normal else hr.normal + rnd⟩,
        l.albedo) := by
  simp only [Lambertian.scatter, Vector3D.add_sub_cancel_left_vec]

/-- C6: Metal scatter returns Some exactly when the direction
`reflect(incoming, normal) + roughness·rnd` makes a strictly positive dot
product with the stored normal; in that case the attenuation is the albedo
and the scattered ray is that direction from the hit point; otherwise the
ray is absorbed (None). -/
theorem metal_scatter_iff (m : Metal) (ray : Ray) (hr : ObjectHitRecord)
    (rnd : Vector3D) :
    ((∃ out, m.scatter ray hr rnd = some out) ↔
      0 < (reflect ray.direction hr.normal + rnd * m.roughness).dot hr.normal) ∧
    (∀ sc att, m.scatter ray hr rnd = some (sc, att) →
      att = m.albedo ∧
      sc = ⟨hr.point, reflect ray.direction hr.normal + rnd * m.roughness⟩) ∧
    (¬ 0 < (reflect ray.direction hr.normal + rnd * m.roughness).dot hr.normal →
      m.scatter ray hr rnd = none) := by
  simp only [Metal.scatter]
  by_cases hd :
      0 < (reflect ray.direction hr.normal + rnd * m.roughness).dot hr.normal
  · rw [if_pos (by exact hd)]
    refine ⟨⟨fun _ => hd, fun _ => ⟨_, rfl⟩⟩, ?_, fun hc => absurd hd hc⟩
    intro sc att hsc
    simp only [Option.some.injEq, Prod.mk.injEq] at hsc
    exact ⟨hsc.2.symm, hsc.1.symm⟩
  · rw [if_neg (by exact hd)]
    refine ⟨⟨?_, fun hc => absurd hc hd⟩, ?_, fun _ => rfl⟩
    · rintro ⟨out, hout⟩
      exact absurd hout (by simp)
    · intro sc att hsc
      exact absurd hsc (by simp)

/-- Metal material with red albedo and zero roughness, a concrete input. -/
noncomputable def sampleMetal : Metal := ⟨⟨1, 0, 0⟩, 0⟩

/-- Concrete hit record at the front intersection of `sampleRayHit` with
`sampleSphere` (point (0,0,−1), outward normal (0,0,1)). -/
noncomputable def sampleHitRecord : ObjectHitRecord :=
  ⟨1, ⟨0, 0, -1⟩, ⟨0, 0, 1⟩, true, sampleMaterial⟩

theorem metal_scatter_iff_witness :
    ∃ out, sampleMetal.scatter sampleRayHit sampleHitRecord ⟨0, 0, 0⟩ = some out :=
  (metal_scatter_iff sampleMetal sampleRayHit sampleHitRecord ⟨0, 0, 0⟩).1.mpr
    (by
      simp only [reflect, sampleMetal, sampleRayHit, sampleHitRecord,
        sampleMaterial, Vector3D.smul_def, Vector3D.sub_def, Vector3D.add_def,
        Vector3D.dot_def]
      norm_num)

/-- C10: for either material variant, whenever scatter returns a ray, that
ray's origin is exactly the hit record's intersection point. -/
theorem scatter_ray_origin_eq_hit_point (m : Material) (ray : Ray)
    (hr : ObjectHitRecord) (rnd : Vector3D) (sc : Ray) (att : Color)
    (h : m.scatter ray hr rnd = some (sc, att)) : sc.origin = hr.point := by
  cases m with
  | lambertian l =>
    simp only [Material.scatter, Lambertian.scatter, Option.some.injEq,
      Prod.mk.injEq] at h
    rw [← h.1]
  | metal mm =>
    simp only [Material.scatter, Metal.scatter] at h
    split_ifs at h
    simp only [Option.some.injEq, Prod.mk.injEq] at h
    rw [← h.1]

theorem scatter_ray_origin_eq_hit_point_witness :
    ∃ sc att,
      Material.scatter sampleMaterial sampleRayHit sampleHitRecord ⟨0, 0, 0⟩ =
        some (sc, att) ∧ sc.origin = sampleHitRecord.point := by
  have h : Material.scatter sampleMaterial sampleRayHit sampleHitRecord
      ⟨0, 0, 0⟩ =
      some (⟨sampleHitRecord.point,
        (sampleHitRecord.normal + (⟨0, 0, 0⟩ : Vector3D))⟩,
        (⟨0.5, 0.5, 0.5⟩ : Color)) := by
    simp only [Material.scatter, sampleMaterial, Lambertian.scatter,
      Vector3D.add_sub_cancel_left_vec]
    rw [if_neg]
    intro hnz
    have h3 := hnz.2.2
    simp only [sampleHitRecord, sampleMaterial, Vector3D.add_def] at h3
    norm_num at h3
    linarith [f64Epsilon_lt_one]
  exact ⟨_, _, h, scatter_ray_origin_eq_hit_point _ _ _ _ _ _ h⟩

theorem rayColorCalls_le_toNat (w : List Sphere) (rng : ℕ → Vector3D) :
    ∀ (N : ℕ) (ray : Ray) (n : ℕ) (d : ℤ), d.toNat = N →
      rayColorCalls w rng ray n d ≤ N := by
  intro N
  induction N with
  | zero =>
    intro ray n d hN
    have hd : d ≤ 0 := by omega
    rw [rayColorCalls, if_pos hd]
  | succ N ih =>
    intro ray n d hN
    have hd : ¬ d ≤ 0 := by omega
    rw [rayColorCalls, if_neg hd]
    cases hhit : World.hit w ray 0.001 f64MAX with
    | none =>
      exact Nat.zero_le _
    | some hrec =>
      dsimp only
      cases hscat : hrec.material.scatter ray hrec (rng n) with
      | none =>
        exact Nat.zero_le _
      | some pr =>
        obtain ⟨sc, al⟩ := pr
        dsimp only
        have hrec2 := ih sc (n + 1) (d - 1) (by omega)
        omega

/-- C4: the radiance estimator is total with recursion bounded by the depth
argument: for depth ≤ 0 (including negative depth) it returns black and
performs zero recursive calls, and in general the number of recursive calls
(each of which passes depth − 1) is at most `depth.toNat`. -/
theorem ray_color_depth_bound (w : List Sphere) (rng : ℕ → Vector3D)
    (ray : Ray) (n : ℕ) (d : ℤ) :
    (d ≤ 0 → rayColor w rng ray n d = ⟨0, 0, 0⟩ ∧
      rayColorCalls w rng ray n d = 0) ∧
    rayColorCalls w rng ray n d ≤ d.toNat := by
  refine ⟨fun hd => ⟨?_, ?_⟩, ?_⟩
  · rw [rayColor, if_pos hd]
  · rw [rayColorCalls, if_pos hd]
  · exact rayColorCalls_le_toNat w rng d.toNat ray n d rfl

theorem ray_color_depth_bound_witness :
    rayColor [] (fun _ => ⟨0, 0, 0⟩) sampleRayMiss 0 (-3) = ⟨0, 0, 0⟩ ∧
    rayColorCalls [] (fun _ => ⟨0, 0, 0⟩) sampleRayMiss 0 (-3) = 0 :=
  (ray_color_depth_bound [] (fun _ => ⟨0, 0, 0⟩) sampleRayMiss 0 (-3)).1
    (by norm_num)

/-- C8 counterexample: at pixel row y = 0 of a 2-row image with zero jitter
(valid coordinates: 0 < 2, jitter 0 ∈ [0,1)) the vertical argument handed
to `get_ray` is (2 − (0 + 0))/(2 − 1) = 2, which is not in [0, 1]. -/
theorem supersample_v_exceeds_one_cex :
    superSampleV 0 2 0 = 2 ∧ ¬ superSampleV 0 2 0 ≤ 1 ∧
    (0 : ℕ) < 2 ∧ (0 : ℝ) ≤ 0 ∧ (0 : ℝ) < 1 := by
  have h : superSampleV 0 2 0 = 2 := by
    simp only [superSampleV]
    norm_num
  refine ⟨h, ?_, by norm_num, le_refl 0, by norm_num⟩
  rw [h]
  norm_num

/-- C8 (amended): for image dimensions at least 2, pixel coordinates in
range and jitter in [0, 1), the supersampler's arguments satisfy
0 ≤ s < W/(W−1) and 0 < t ≤ H/(H−1).  Both bounds exceed 1, and are
attained (s with positive jitter at the rightmost column, t at the top
row), so the arguments do not always lie in the [0, 1] interval that
`get_ray` is specified for. -/
theorem supersample_coordinate_bounds (x y W H : ℕ) (ξx ξy : ℝ)
    (hW : 2 ≤ W) (hH : 2 ≤ H) (hx : x < W) (hy : y < H)
    (hξx0 : 0 ≤ ξx) (hξx1 : ξx < 1) (hξy0 : 0 ≤ ξy) (hξy1 : ξy < 1) :
    0 ≤ superSampleU x W ξx ∧
    superSampleU x W ξx < (W : ℝ) / ((W : ℝ) - 1) ∧
    0 < superSampleV y H ξy ∧
    superSampleV y H ξy ≤ (H : ℝ) / ((H : ℝ) - 1) := by
  have hW2 : (2 : ℝ) ≤ (W : ℝ) := by exact_mod_cast hW
  have hH2 : (2 : ℝ) ≤ (H : ℝ) := by exact_mod_cast hH
  have hWpos : (0 : ℝ) < (W : ℝ) - 1 := by linarith
  have hHpos : (0 : ℝ) < (H : ℝ) - 1 := by linarith
  have hxr : (x : ℝ) ≤ (W : ℝ) - 1 := by
    have : ((x : ℕ) : ℝ) + 1 ≤ (W : ℝ) := by exact_mod_cast hx
    linarith
  have hyr : (y : ℝ) ≤ (H : ℝ) - 1 := by
    have : ((y : ℕ) : ℝ) + 1 ≤ (H : ℝ) := by exact_mod_cast hy
    linarith
  have hx0 : (0 : ℝ) ≤ (x : ℝ) := Nat.cast_nonneg x
  have hy0 : (0 : ℝ) ≤ (y : ℝ) := Nat.cast_nonneg y
  refine ⟨?_, ?_, ?_, ?_⟩
  · exact div_nonneg (by linarith) (le_of_lt hWpos)
  · rw [superSampleU, div_lt_div_iff₀ hWpos hWpos]
    have hnum : (x : ℝ) + ξx < (W : ℝ) := by linarith
    exact mul_lt_mul_of_pos_right hnum hWpos
  · apply div_pos
    · linarith
    · exact hHpos
  · rw [superSampleV, div_le_div_iff₀ hHpos hHpos]
    have hnum : (H : ℝ) - ((y : ℝ) + ξy) ≤ (H : ℝ) := by linarith
    exact mul_le_mul_of_nonneg_right hnum (le_of_lt hHpos)

theorem supersample_coordinate_bounds_witness :
    0 ≤ superSampleU 1 4 (1 / 2) ∧
    superSampleU 1 4 (1 / 2) < ((4 : ℕ) : ℝ) / (((4 : ℕ) : ℝ) - 1) ∧
    0 < superSampleV 1 4 (1 / 2) ∧
    superSampleV 1 4 (1 / 2) ≤ ((4 : ℕ) : ℝ) / (((4 : ℕ) : ℝ) - 1) :=
  supersample_coordinate_bounds 1 1 4 4 (1 / 2) (1 / 2) (by norm_num)
    (by norm_num) (by norm_num) (by norm_num) (by norm_num) (by norm_num)
    (by norm_num) (by norm_num)

/-- All three channels of a color within [0, 1]. -/
def Color.in01 (c : Color) : Prop :=
  0 ≤ c.red ∧ c.red ≤ 1 ∧ 0 ≤ c.green ∧ c.green ≤ 1 ∧ 0 ≤ c.blue ∧ c.blue ≤ 1

/-- The material's albedo channels all lie in [0, 1]. -/
def Material.albedo01 : Material → Prop
  | Material.lambertian l => l.albedo.in01
  | Material.metal m => m.albedo.in01

theorem Material.scatter_attenuation_in01 (m : Material) (ray : Ray)
    (hr : ObjectHitRecord) (rnd : Vector3D) (sc : Ray) (att : Color)
    (h : m.scatter ray hr rnd = some (sc, att)) (hm : m.albedo01) :
    att.in01 := by
  cases m with
  | lambertian l =>
    simp only [Material.scatter, Lambertian.scatter, Option.some.injEq,
      Prod.mk.injEq] at h
    rw [← h.2]
    exact hm
  | metal mm =>
    simp only [Material.scatter, Metal.scatter] at h
    split_ifs at h
    simp only [Option.some.injEq, Prod.mk.injEq] at h
    rw [← h.2]
    exact hm

theorem Vector3D.abs_y_le_length (v : Vector3D) : |v.y| ≤ v.length := by
  rw [Vector3D.length, Vector3D.distance]
  dsimp only
  rw [show |v.y| = Real.sqrt (v.y * v.y) from (Real.sqrt_mul_self_eq_abs v.y).symm]
  apply Real.sqrt_le_sqrt
  nlinarith [mul_self_nonneg (v.x - 0), mul_self_nonneg (v.z - 0)]

theorem Vector3D.length_nonneg (v : Vector3D) : 0 ≤ v.length := by
  rw [Vector3D.length, Vector3D.distance]
  exact Real.sqrt_nonneg _

theorem Vector3D.unit_y_bounds (v : Vector3D) :
    -1 ≤ v.unit_vector.y ∧ v.unit_vector.y ≤ 1 := by
  have habs := v.abs_y_le_length
  have hL0 := v.length_nonneg
  have hy : v.unit_vector.y = v.y / v.length := by
    rw [Vector3D.unit_vector]
    simp only [Vector3D.sdiv_def]
  rcases eq_or_lt_of_le hL0 with h0 | hpos
  · rw [hy, ← h0, div_zero]
    norm_num
  · have habs2 : |v.y / v.length| ≤ 1 := by
      rw [abs_div, abs_of_pos hpos]
      exact (div_le_one hpos).mpr habs
    rw [hy]
    exact abs_le.mp habs2

theorem rayColor_in01 (w : List Sphere) (hw : ∀ s ∈ w, s.material.albedo01)
    (rng : ℕ → Vector3D) :
    ∀ (N : ℕ) (ray : Ray) (n : ℕ) (d : ℤ), d.toNat = N →
      (rayColor w rng ray n d).in01 := by
  intro N
  induction N with
  | zero =>
    intro ray n d hN
    rw [rayColor, if_pos (show d ≤ 0 by omega)]
    simp only [Color.in01]
    norm_num
  | succ N ih =>
    intro ray n d hN
    rw [rayColor, if_neg (show ¬ d ≤ 0 by omega)]
    cases hhit : World.hit w ray 0.001 f64MAX with
    | none =>
      dsimp only
      obtain ⟨hy1, hy2⟩ := Vector3D.unit_y_bounds ray.direction
      simp only [Color.in01]
      refine ⟨by nlinarith, by nlinarith, by nlinarith, by nlinarith,
        by nlinarith, by nlinarith⟩
    | some hrec =>
      dsimp only
      cases hscat : hrec.material.scatter ray hrec (rng n) with
      | none =>
        simp only [Color.in01]
        norm_num
      | some pr =>
        obtain ⟨sc, att⟩ := pr
        dsimp only
        have hchild := ih sc (n + 1) (d - 1) (by omega)
        obtain ⟨s, hs, hmat⟩ :=
          World.hit_material_mem w ray 0.001 f64MAX hrec hhit
        have hm01 : hrec.material.albedo01 := by rw [hmat]; exact hw s hs
        have hatt : att.in01 :=
          Material.scatter_attenuation_in01 hrec.material ray hrec (rng n)
            sc att hscat hm01
        obtain ⟨ar0, ar1, ag0, ag1, ab0, ab1⟩ := hatt
        obtain ⟨cr0, cr1, cg0, cg1, cb0, cb1⟩ := hchild
        simp only [Color.in01]
        exact ⟨mul_nonneg ar0 cr0, by nlinarith, mul_nonneg ag0 cg0,
          by nlinarith, mul_nonneg ab0 cb0, by nlinarith⟩

/-- C5: with every material's albedo channels inside [0, 1], every channel
of the estimator's color is at most 1 (before gamma correction): the sky
gradient stays within 1 per channel, depth exhaustion and absorption return
0, and each bounce multiplies componentwise by an attenuation in [0, 1]. -/
theorem ray_color_channels_le_one (w : List Sphere)
    (hw : ∀ s ∈ w, s.material.albedo01) (rng : ℕ → Vector3D) (ray : Ray)
    (n : ℕ) (d : ℤ) :
    (rayColor w rng ray n d).red ≤ 1 ∧
    (rayColor w rng ray n d).green ≤ 1 ∧
    (rayColor w rng ray n d).blue ≤ 1 := by
  have h := rayColor_in01 w hw rng d.toNat ray n d rfl
  exact ⟨h.2.1, h.2.2.2.1, h.2.2.2.2.2⟩

theorem ray_color_channels_le_one_witness :
    (rayColor [] (fun _ => ⟨0, 0, 0⟩) sampleRayMiss 0 50).red ≤ 1 ∧
    (rayColor [] (fun _ => ⟨0, 0, 0⟩) sampleRayMiss 0 50).green ≤ 1 ∧
    (rayColor [] (fun _ => ⟨0, 0, 0⟩) sampleRayMiss 0 50).blue ≤ 1 :=
  ray_color_channels_le_one [] (by simp) (fun _ => ⟨0, 0, 0⟩)
    sampleRayMiss 0 50
